import Mathlib

/-!
Verification of the provider resolution and linking engine of
Flask-MultiAuth against its natural-language specification.

The Python modules `flask_multiauth/util.py`, `flask_multiauth/core.py`
and `flask_multiauth/providers/ldap/util.py` are shallowly embedded.
Python dicts are modelled as association lists (`Dict`) whose lookup
returns the first binding; the code only ever builds dicts with unique
keys, and where a proof needs that fact it appears as a `Nodup`
hypothesis.  Python `None` is the value `none` of `PyVal`.  Functions
that can raise return `Except PyErr`.
-/

namespace FlaskMultiAuth

/-- A Python value as far as the claims need it: a string or `None`. -/
abbrev PyVal := Option String

/-- A Python dict with string keys, modelled as an association list whose
lookup returns the first binding for a key. -/
abbrev Dict (V : Type) := List (String × V)

/-- Lookup in a dict: the value of the first binding of `k`, if any. -/
def dget {V : Type} (d : Dict V) (k : String) : Option V :=
  (d.find? (fun kv => kv.1 == k)).map (·.2)

/-- Key membership in a dict (`k in d` in Python). -/
def dmem {V : Type} (k : String) (d : Dict V) : Bool :=
  d.any (fun kv => kv.1 == k)

/-- The key list of a dict (`d.keys()` in Python). -/
def dkeys {V : Type} (d : Dict V) : List String :=
  d.map (·.1)

/-- `d[k] = v` for a Python dict: replaces the value of an existing
binding of `k`, otherwise adds one.  The representation places the new
binding in front and drops older bindings of `k`; Python 2 dicts carry
no observable order, so only lookup and key membership matter. -/
def dset {V : Type} (d : Dict V) (k : String) (v : V) : Dict V :=
  (k, v) :: d.filter (fun kv => !(kv.1 == k))

/-- `d.update(upd)` for a Python dict: sets each binding of `upd` in turn. -/
def dupdate {V : Type} (d : Dict V) (upd : List (String × V)) : Dict V :=
  upd.foldl (fun acc kv => dset acc kv.1 kv.2) d

/-- `d.get(k)` on a dict with `PyVal` values: `None` both for a missing
key and for a key bound to `None`. -/
def pyget (d : Dict PyVal) (k : String) : PyVal :=
  (dget d k).join

/-- `set(l)` for a list of strings, keeping one occurrence of each
element (membership is all that is ever used). -/
def pydedup : List String → List String
  | [] => []
  | x :: xs =>
    let r := pydedup xs
    if r.contains x then r else x :: r

/-! Basic lemmas about the dict model. -/

theorem dget_eq_none_iff {V : Type} (d : Dict V) (k : String) :
    dget d k = none ↔ k ∉ dkeys d := by
  induction d with
  | nil => simp [dget, dkeys]
  | cons kv rest ih =>
    by_cases h : kv.1 = k
    · subst h
      simp [dget, dkeys, List.find?]
    · simp only [dget, dkeys, List.find?, List.map_cons, List.mem_cons]
      rw [show (kv.1 == k) = false by simpa using h]
      simp only [dget, dkeys] at ih
      simp [ih, h, Ne.symm h]

theorem dmem_iff_mem_dkeys {V : Type} (d : Dict V) (k : String) :
    dmem k d = true ↔ k ∈ dkeys d := by
  simp only [dmem, List.any_eq_true, beq_iff_eq, dkeys, List.mem_map]

theorem dget_isSome_iff_dmem {V : Type} (d : Dict V) (k : String) :
    (dget d k).isSome = true ↔ dmem k d = true := by
  rw [dmem_iff_mem_dkeys]
  rcases h : dget d k with _ | v
  · simp [(dget_eq_none_iff d k).1 h]
  · simp only [Option.isSome_some, true_iff]
    by_contra hk
    rw [(dget_eq_none_iff d k).2 hk] at h
    exact Option.noConfusion h

theorem dget_mem {V : Type} {d : Dict V} {k : String} {v : V}
    (h : dget d k = some v) : (k, v) ∈ d := by
  induction d with
  | nil => simp [dget] at h
  | cons kv rest ih =>
    simp only [dget, List.find?] at h
    rcases hb : (kv.1 == k) with _ | _
    · rw [hb] at h
      exact List.mem_cons_of_mem _ (ih h)
    · rw [hb] at h
      simp only [Option.map_some] at h
      have : kv = (k, v) := by
        have h1 : kv.1 = k := by simpa using hb
        cases kv
        simp_all
      simp [this]

theorem mem_dget_of_nodup {V : Type} {d : Dict V} {k : String} {v : V}
    (hd : (dkeys d).Nodup) (h : (k, v) ∈ d) : dget d k = some v := by
  induction d with
  | nil => simp at h
  | cons kv rest ih =>
    simp only [dkeys, List.map_cons, List.nodup_cons] at hd
    rcases List.mem_cons.1 h with h1 | h1
    · subst h1
      simp [dget, List.find?]
    · have hk : kv.1 ≠ k := by
        intro he
        exact hd.1 (he ▸ (List.mem_map.2 ⟨(k, v), h1, rfl⟩))
      simp only [dget, List.find?]
      rw [show (kv.1 == k) = false by simpa using hk]
      exact ih hd.2 h1

theorem dget_dset_self {V : Type} (d : Dict V) (k : String) (v : V) :
    dget (dset d k v) k = some v := by
  simp [dget, dset, List.find?]

theorem find?_filter_ne {V : Type} (d : Dict V) (k k' : String) (h : k' ≠ k) :
    (d.filter (fun kv => !(kv.1 == k))).find? (fun kv => kv.1 == k')
      = d.find? (fun kv => kv.1 == k') := by
  induction d with
  | nil => rfl
  | cons kv rest ih =>
    by_cases hk : kv.1 = k
    · have h1 : (kv.1 == k') = false := by
        simpa using (hk ▸ Ne.symm h)
      rw [List.filter_cons_of_neg (by simpa using hk),
        List.find?_cons_of_neg _ (by simpa using h1), ih]
    · by_cases h2 : kv.1 = k'
      · rw [List.filter_cons_of_pos (by simpa using hk),
          List.find?_cons_of_pos _ (by simpa using h2),
          List.find?_cons_of_pos _ (by simpa using h2)]
      · rw [List.filter_cons_of_pos (by simpa using hk),
          List.find?_cons_of_neg _ (by simpa using h2),
          List.find?_cons_of_neg _ (by simpa using h2), ih]

theorem dget_dset_ne {V : Type} (d : Dict V) (k k' : String) (v : V)
    (h : k' ≠ k) : dget (dset d k v) k' = dget d k' := by
  simp only [dget, dset]
  rw [List.find?_cons_of_neg _ (by simpa using (Ne.symm h)),
    find?_filter_ne d k k' h]

theorem dmem_dset {V : Type} (d : Dict V) (k k' : String) (v : V) :
    dmem k' (dset d k v) = true ↔ k' = k ∨ dmem k' d = true := by
  by_cases h : k' = k
  · subst h
    simp only [true_or, iff_true]
    rw [← dget_isSome_iff_dmem, dget_dset_self]
    rfl
  · rw [← dget_isSome_iff_dmem, dget_dset_ne d k k' v h, dget_isSome_iff_dmem]
    simp [h]

theorem dget_dupdate_not_mem {V : Type} (d : Dict V) (upd : List (String × V))
    (k : String) (h : k ∉ upd.map (·.1)) :
    dget (dupdate d upd) k = dget d k := by
  induction upd generalizing d with
  | nil => rfl
  | cons kv rest ih =>
    simp only [List.map_cons, List.mem_cons] at h
    push_neg at h
    simp only [dupdate, List.foldl_cons]
    rw [show List.foldl (fun acc kv => dset acc kv.1 kv.2) (dset d kv.1 kv.2) rest
          = dupdate (dset d kv.1 kv.2) rest from rfl]
    rw [ih _ h.2, dget_dset_ne _ _ _ _ (Ne.symm (Ne.symm h.1))]

theorem dget_dupdate_mem {V : Type} (d : Dict V) (upd : List (String × V))
    (k : String) (v : V) (hnd : (upd.map (·.1)).Nodup) (h : (k, v) ∈ upd) :
    dget (dupdate d upd) k = some v := by
  induction upd generalizing d with
  | nil => simp at h
  | cons kv rest ih =>
    simp only [List.map_cons, List.nodup_cons] at hnd
    simp only [dupdate, List.foldl_cons]
    rw [show List.foldl (fun acc kv => dset acc kv.1 kv.2) (dset d kv.1 kv.2) rest
          = dupdate (dset d kv.1 kv.2) rest from rfl]
    rcases List.mem_cons.1 h with h1 | h1
    · subst h1
      rw [dget_dupdate_not_mem _ _ _ hnd.1, dget_dset_self]
    · exact ih _ hnd.2 h1

theorem dmem_dupdate {V : Type} (d : Dict V) (upd : List (String × V)) (k : String) :
    dmem k (dupdate d upd) = true ↔ dmem k d = true ∨ k ∈ upd.map (·.1) := by
  induction upd generalizing d with
  | nil => simp [dupdate]
  | cons kv rest ih =>
    simp only [dupdate, List.foldl_cons]
    rw [show List.foldl (fun acc kv => dset acc kv.1 kv.2) (dset d kv.1 kv.2) rest
          = dupdate (dset d kv.1 kv.2) rest from rfl]
    rw [ih, dmem_dset]
    simp only [List.map_cons, List.mem_cons]
    tauto

theorem dget_filter_key {V : Type} (d : Dict V) (p : String → Bool) (k : String) :
    dget (d.filter fun kv => p kv.1) k = if p k then dget d k else none := by
  induction d with
  | nil => simp [dget]
  | cons kv rest ih =>
    by_cases hk : kv.1 = k
    · subst hk
      by_cases hp : p kv.1
      · rw [List.filter_cons_of_pos (by simpa using hp), if_pos hp]
        simp only [dget]
        rw [List.find?_cons_of_pos _ (by simp), List.find?_cons_of_pos _ (by simp)]
      · rw [List.filter_cons_of_neg (by simpa using hp), if_neg hp, ih, if_neg hp]
    · by_cases hp : p kv.1
      · rw [List.filter_cons_of_pos (by simpa using hp)]
        simp only [dget]
        rw [List.find?_cons_of_neg _ (by simpa using hk),
          List.find?_cons_of_neg _ (by simpa using hk)]
        exact ih

      · rw [List.filter_cons_of_neg (by simpa using hp), ih]
        by_cases hpk : p k
        · rw [if_pos hpk, if_pos hpk]
          simp only [dget]
          rw [List.find?_cons_of_neg _ (by simpa using hk)]
        · rw [if_neg hpk, if_neg hpk]

theorem dmem_filter_key {V : Type} (d : Dict V) (p : String → Bool) (k : String) :
    dmem k (d.filter fun kv => p kv.1) = true ↔ p k = true ∧ dmem k d = true := by
  rw [← dget_isSome_iff_dmem, ← dget_isSome_iff_dmem, dget_filter_key]
  by_cases hp : p k
  · simp [hp]
  · simp [hp]

theorem nodup_dkeys_filter {V : Type} (d : Dict V) (p : String × V → Bool)
    (h : (dkeys d).Nodup) : (dkeys (d.filter p)).Nodup := by
  have hs : List.Sublist (dkeys (d.filter p)) (dkeys d) :=
    List.Sublist.map _ (List.filter_sublist d)
  exact h.sublist hs

theorem mem_pydedup (l : List String) (x : String) :
    x ∈ pydedup l ↔ x ∈ l := by
  induction l with
  | nil => simp [pydedup]
  | cons y ys ih =>
    simp only [pydedup]
    by_cases h : (pydedup ys).contains y
    · rw [if_pos h]
      rw [List.mem_cons, ← ih]
      have hy : y ∈ pydedup ys := by simpa using h
      constructor
      · exact Or.inr
      · rintro (h1 | h1)
        · exact h1 ▸ hy
        · exact h1
    · rw [if_neg h]
      simp [List.mem_cons, ih]

theorem nodup_pydedup (l : List String) : (pydedup l).Nodup := by
  induction l with
  | nil => simp [pydedup]
  | cons x xs ih =>
    simp only [pydedup]
    by_cases h : (pydedup xs).contains x
    · rw [if_pos h]
      exact ih
    · rw [if_neg h]
      exact List.nodup_cons.2 ⟨by simpa using h, ih⟩

/-! ## The Attribute Mapper (`flask_multiauth/util.py`, `convert_data`) -/

/-- The first two statements of `convert_data` in `flask_multiauth/util.py`:
`mapped_keys = set(mapping.values())`, then `result` keeps the entries of
`data` whose key is not a mapping source and is updated with
`(target_key, data.get(source_key))` for every mapping item. -/
def convert_data_nokeys (data : Dict PyVal) (mapping : Dict String) : Dict PyVal :=
  dupdate (data.filter (fun kv => !((mapping.map (·.2)).contains kv.1)))
    (mapping.map (fun m => (m.1, pyget data m.2)))

/-- The `if keys is not None` block of `convert_data`: restrict `r` to the
key set `ks` and add a `None` binding for every key of `ks` that the
restricted dict misses. -/
def restrict_keys (r : Dict PyVal) (ks : List String) : Dict PyVal :=
  let result2 := r.filter (fun kv => ks.contains kv.1)
  dupdate result2
    ((ks.filter (fun k => !(dmem k result2))).map (fun k => (k, (none : PyVal))))

/-- `convert_data(data, mapping, keys)` from `flask_multiauth/util.py`:
the mapping step followed, when `keys` is given, by the restriction step.
`set(keys)` is modelled by `pydedup`. -/
def convert_data (data : Dict PyVal) (mapping : Dict String)
    (keys : Option (List String)) : Dict PyVal :=
  let result := convert_data_nokeys data mapping
  match keys with
  | none => result
  | some keys0 => restrict_keys result (pydedup keys0)

theorem map_fst_pair_none (l : List String) :
    ((l.map (fun k => ((k, (none : PyVal)) : String × PyVal))).map (·.1)) = l := by
  induction l with
  | nil => rfl
  | cons x xs ih => simp only [List.map_cons, ih]

theorem restrict_keys_mem (r : Dict PyVal) (ks : List String) (k : String) :
    dmem k (restrict_keys r ks) = true ↔ k ∈ ks := by
  simp only [restrict_keys]
  rw [dmem_dupdate, map_fst_pair_none]
  constructor
  · rintro (h | h)
    · rcases (dmem_filter_key r (fun x => ks.contains x) k).1 h with ⟨h1, _⟩
      simpa using h1
    · exact List.mem_of_mem_filter h
  · intro hk
    by_cases hd : dmem k (r.filter fun kv => ks.contains kv.1) = true
    · exact Or.inl hd
    · exact Or.inr (List.mem_filter.2 ⟨hk, by simpa using hd⟩)

theorem restrict_dget_present (r : Dict PyVal) (ks : List String) (k : String)
    (v : PyVal) (hk : k ∈ ks) (hv : dget r k = some v) :
    dget (restrict_keys r ks) k = some v := by
  simp only [restrict_keys]
  have h2 : dget (r.filter fun kv => ks.contains kv.1) k = some v := by
    rw [dget_filter_key, if_pos (by simpa using hk)]
    exact hv
  have h3 : dmem k (r.filter fun kv => ks.contains kv.1) = true := by
    rw [← dget_isSome_iff_dmem, h2]
    rfl
  rw [dget_dupdate_not_mem, h2]
  rw [map_fst_pair_none]
  intro hmem
  have h5 := (List.mem_filter.1 hmem).2
  rw [h3] at h5
  simp at h5

theorem restrict_dget_absent (r : Dict PyVal) (ks : List String) (k : String)
    (hnd : ks.Nodup) (hk : k ∈ ks) (hv : dget r k = none) :
    dget (restrict_keys r ks) k = some none := by
  simp only [restrict_keys]
  have h2 : dget (r.filter fun kv => ks.contains kv.1) k = none := by
    rw [dget_filter_key]
    by_cases hc : ks.contains k = true
    · rw [if_pos hc]
      exact hv
    · rw [if_neg hc]
  have h3 : ¬ dmem k (r.filter fun kv => ks.contains kv.1) = true := by
    rw [← dget_isSome_iff_dmem, h2]
    simp
  apply dget_dupdate_mem
  · rw [map_fst_pair_none]
    exact hnd.filter _
  · exact List.mem_map.2 ⟨k, List.mem_filter.2 ⟨hk, by simpa using h3⟩, rfl⟩

theorem dget_convert_nokeys_target (data : Dict PyVal) (mapping : Dict String)
    (tgt src : String) (hm : (mapping.map (·.1)).Nodup) (h : (tgt, src) ∈ mapping) :
    dget (convert_data_nokeys data mapping) tgt = some (pyget data src) := by
  apply dget_dupdate_mem
  · simpa [List.map_map, Function.comp] using hm
  · exact List.mem_map.2 ⟨(tgt, src), h, rfl⟩

theorem dget_convert_nokeys_not_target (data : Dict PyVal) (mapping : Dict String)
    (k : String) (h : k ∉ mapping.map (·.1)) :
    dget (convert_data_nokeys data mapping) k
      = if (mapping.map (·.2)).contains k then none else dget data k := by
  rw [convert_data_nokeys,
    dget_dupdate_not_mem _ _ _ (by simpa [List.map_map, Function.comp] using h),
    dget_filter_key data (fun x => !((mapping.map (·.2)).contains x)) k]
  by_cases hc : (mapping.map (·.2)).contains k = true
  all_goals simp_all

/-- Claim C4: for every flat record, field mapping and allowed-key set,
`convert_data` returns a dict whose key set is exactly the allowed-key
set; each mapping target key that is allowed gets `data.get(source)`;
each allowed key produced neither by the mapping nor by pass-through is
present and bound to `None` (the no-value marker), never omitted.  In
particular `convert_data({uid: jdoe, mail: j@x.com}, {id: uid},
keys={id, mail, extra})` is `{id: jdoe, mail: j@x.com, extra: None}`. -/
theorem convert_data_allowed_keys_spec (data : Dict PyVal) (mapping : Dict String)
    (ks : List String) (hm : (mapping.map (·.1)).Nodup) :
    (∀ k, dmem k (convert_data data mapping (some ks)) = true ↔ k ∈ ks)
    ∧ (∀ tgt src, (tgt, src) ∈ mapping → tgt ∈ ks →
        dget (convert_data data mapping (some ks)) tgt = some (pyget data src))
    ∧ (∀ k, k ∈ ks → k ∉ mapping.map (·.1) →
        (k ∉ dkeys data ∨ k ∈ mapping.map (·.2)) →
        dget (convert_data data mapping (some ks)) k = some none)
    ∧ dget (convert_data [("uid", some "jdoe"), ("mail", some "j@x.com")]
        [("id", "uid")] (some ["id", "mail", "extra"])) "id" = some (some "jdoe")
    ∧ dget (convert_data [("uid", some "jdoe"), ("mail", some "j@x.com")]
        [("id", "uid")] (some ["id", "mail", "extra"])) "mail" = some (some "j@x.com")
    ∧ dget (convert_data [("uid", some "jdoe"), ("mail", some "j@x.com")]
        [("id", "uid")] (some ["id", "mail", "extra"])) "extra" = some none := by
  have hconv : convert_data data mapping (some ks)
      = restrict_keys (convert_data_nokeys data mapping) (pydedup ks) := rfl
  refine ⟨?_, ?_, ?_, by decide, by decide, by decide⟩
  · intro k
    rw [hconv, restrict_keys_mem, mem_pydedup]
  · intro tgt src h1 h2
    rw [hconv]
    exact restrict_dget_present _ _ _ _ ((mem_pydedup ks tgt).2 h2)
      (dget_convert_nokeys_target data mapping tgt src hm h1)
  · intro k h1 h2 h3
    rw [hconv]
    apply restrict_dget_absent _ _ _ (nodup_pydedup ks) ((mem_pydedup ks k).2 h1)
    rw [dget_convert_nokeys_not_target data mapping k h2]
    rcases h3 with h3 | h3
    · by_cases hc : (mapping.map (·.2)).contains k = true
      · rw [if_pos hc]
      · rw [if_neg hc]
        exact (dget_eq_none_iff data k).2 h3
    · rw [if_pos (by simpa using h3)]

/-- Witness for claim C4 at the record, mapping and key set of the
spec example. -/
theorem convert_data_allowed_keys_spec_witness :
    dget (convert_data [("uid", some "jdoe"), ("mail", some "j@x.com")]
      [("id", "uid")] (some ["id", "mail", "extra"])) "extra" = some none :=
  (convert_data_allowed_keys_spec [("uid", some "jdoe"), ("mail", some "j@x.com")]
    [("id", "uid")] ["id", "mail", "extra"] (by simp)).2.2.2.2.2

/-- Claim C10: with no key restriction, a key that is both present in the
record and a target of the mapping gets the mapped source value
(`data.get(source)`, `None` when the source is absent), overriding the
record's own value; and a record key used as a mapping source is absent
from the output unless it is itself a mapping target. -/
theorem convert_data_override_spec (data : Dict PyVal) (mapping : Dict String)
    (hm : (mapping.map (·.1)).Nodup) :
    (∀ k src, (k, src) ∈ mapping → dmem k data = true →
        dget (convert_data data mapping none) k = some (pyget data src))
    ∧ (∀ k, k ∈ dkeys data → k ∈ mapping.map (·.2) → k ∉ mapping.map (·.1) →
        dget (convert_data data mapping none) k = none) := by
  have hconv : convert_data data mapping none = convert_data_nokeys data mapping := rfl
  constructor
  · intro k src h1 _
    rw [hconv]
    exact dget_convert_nokeys_target data mapping k src hm h1
  · intro k _ h2 h3
    rw [hconv, dget_convert_nokeys_not_target data mapping k h3,
      if_pos (by simpa using h2)]

/-- Witness for claim C10: record `{a: 1, b: 2}` with mapping `{a: b}`;
the output binds `a` to the source value `2` and drops `b`. -/
theorem convert_data_override_spec_witness :
    dget (convert_data [("a", some "1"), ("b", some "2")] [("a", "b")] none) "a"
        = some (some "2")
    ∧ dget (convert_data [("a", some "1"), ("b", some "2")] [("a", "b")] none) "b"
        = none := by
  have h := convert_data_override_spec [("a", some "1"), ("b", some "2")]
    [("a", "b")] (by simp)
  exact ⟨h.1 "a" "b" (by simp) (by decide),
    h.2 "b" (by simp [dkeys]) (by simp) (by simp)⟩

/-! ## The canonical provider map (`flask_multiauth/util.py`,
`get_canonical_provider_map`) -/

/-- A link dict of the provider map.  The source manipulates plain
Python dicts; the claims only ever touch the keys `identity_provider`
(written by `get_canonical_provider_map` and read by
`validate_provider_map`), `user_provider` and `mapping` (read by
`MultiAuth.handle_auth_info`), so a link dict is modelled as one
optional field per such key. -/
structure LinkDict where
  identity_provider : Option String := none
  user_provider : Option String := none
  mapping : Option (Dict String) := none
  deriving DecidableEq, Repr

/-- `link.get('mapping', {})` from `core.py`. -/
def LinkDict.getMapping (l : LinkDict) : Dict String :=
  l.mapping.getD []

/-- One entry of a raw provider-map value: a bare string naming an
identity provider, or a link dict. -/
inductive RawLink where
  | str (s : String)
  | obj (d : LinkDict)
  deriving DecidableEq, Repr

/-- A raw provider-map value: either a single entry (the
`not isinstance(identity_providers, (list, tuple, set))` case) or a
list of entries. -/
inductive RawValue where
  | one (l : RawLink)
  | many (ls : List RawLink)
  deriving DecidableEq, Repr

/-- The list the loop body of `get_canonical_provider_map` iterates
over: a non-list value is wrapped in a singleton list. -/
def rawLinks : RawValue → List RawLink
  | .one l => [l]
  | .many ls => ls

/-- One element of the canonical tuple: `{'identity_provider': p}` for a
bare string `p`, the dict itself otherwise. -/
def normalizeLink : RawLink → LinkDict
  | .str p => { identity_provider := some p }
  | .obj d => d

/-- The canonical tuple built for one configured value. -/
def canonicalValue (rv : RawValue) : List LinkDict :=
  (rawLinks rv).map normalizeLink

/-- `get_canonical_provider_map(provider_map)` from
`flask_multiauth/util.py`. -/
def get_canonical_provider_map (provider_map : Dict RawValue) : Dict (List LinkDict) :=
  provider_map.map (fun kv => (kv.1, canonicalValue kv.2))

theorem dget_map_value {V W : Type} (d : Dict V) (f : V → W) (k : String) :
    dget (d.map (fun kv => (kv.1, f kv.2))) k = (dget d k).map f := by
  induction d with
  | nil => rfl
  | cons kv rest ih =>
    by_cases h : kv.1 = k
    · simp only [dget, List.map_cons]
      rw [List.find?_cons_of_pos _ (by simpa using h),
        List.find?_cons_of_pos _ (by simpa using h)]
      rfl
    · simp only [dget, List.map_cons]
      rw [List.find?_cons_of_neg _ (by simpa using h),
        List.find?_cons_of_neg _ (by simpa using h)]
      exact ih

/-- Claim C5: normalization turns every raw provider-map value into the
list of link dicts obtained by normalizing each entry in order (order
preserved, one output per input), and a bare string entry becomes a link
dict naming that identity provider whose effective field mapping
(`link.get('mapping', {})`) is empty. -/
theorem get_canonical_provider_map_spec (provider_map : Dict RawValue)
    (a : String) (rv : RawValue) (h : dget provider_map a = some rv) :
    dget (get_canonical_provider_map provider_map) a
        = some ((rawLinks rv).map normalizeLink)
    ∧ ((rawLinks rv).map normalizeLink).length = (rawLinks rv).length
    ∧ (∀ i (hi : i < (rawLinks rv).length),
        ((rawLinks rv).map normalizeLink).get ⟨i, by simpa using hi⟩
          = normalizeLink ((rawLinks rv).get ⟨i, hi⟩))
    ∧ (∀ s, normalizeLink (.str s)
        = { identity_provider := some s, user_provider := none, mapping := none })
    ∧ (∀ s, (normalizeLink (.str s)).getMapping = [])
    ∧ (∀ d, normalizeLink (.obj d) = d) := by
  refine ⟨?_, by simp, ?_, fun s => rfl, fun s => rfl, fun d => rfl⟩
  · rw [get_canonical_provider_map, dget_map_value provider_map canonicalValue a, h]
    rfl
  · intro i hi
    simp [List.getElem_map]

/-- Witness for claim C5: the raw map `{a: "x"}` normalizes to
`{a: ({'identity_provider': 'x'},)}`. -/
theorem get_canonical_provider_map_spec_witness :
    dget (get_canonical_provider_map [("a", RawValue.one (RawLink.str "x"))]) "a"
      = some [{ identity_provider := some "x", user_provider := none,
                mapping := none }] :=
  (get_canonical_provider_map_spec [("a", RawValue.one (RawLink.str "x"))] "a"
    (RawValue.one (RawLink.str "x")) (by decide)).1

/-! ## Errors raised by the embedded functions -/

/-- The exceptions the embedded code can raise.  `valueErrorNames msg
names` models `ValueError(msg + ', '.join(names))`: the formatted
message is determined by the static prefix and the joined names. -/
inductive PyErr where
  | keyError (k : String)
  | valueErrorNames (msg : String) (names : List String)
  | runtimeError (msg : String)
  | typeError (msg : String)
  | userRetrievalFailed (msg : String)
  | ldapServerError (msg : String)
  deriving DecidableEq, Repr

/-! ## Provider map validation (`flask_multiauth/util.py`,
`validate_provider_map`) -/

/-- The attributes `validate_provider_map(state)` reads from its `state`
argument: the key views of the auth-provider and identity-provider
registries and the canonical provider map.  (`_MultiAuthState` in
`core.py` itself stores the second registry under the attribute name
`user_providers`.) -/
structure ValidationState where
  auth_providers : List String
  identity_providers : List String
  provider_map : Dict (List LinkDict)

/-- `p['identity_provider']` for each link of one map value; a link dict
without that key raises `KeyError`. -/
def links_targets : List LinkDict → Except PyErr (List String)
  | [] => .ok []
  | l :: ls =>
    match l.identity_provider with
    | none => .error (.keyError "identity_provider")
    | some t =>
      match links_targets ls with
      | .error e => .error e
      | .ok r => .ok (t :: r)

/-- The set comprehension
`{p['identity_provider'] for providers in itervalues(provider_map) for p in providers}`,
as the list of targets in iteration order (dedup happens at use). -/
def map_targets : List (List LinkDict) → Except PyErr (List String)
  | [] => .ok []
  | links :: rest =>
    match links_targets links with
    | .error e => .error e
    | .ok ts =>
      match map_targets rest with
      | .error e => .error e
      | .ok r => .ok (ts ++ r)

/-- Message prefix of the first `ValueError` of `validate_provider_map`. -/
def authLinkMsg : String := "Auth providers not linked to identity providers: "

/-- Message prefix of the second `ValueError` of `validate_provider_map`. -/
def brokenLinkMsg : String := "Broken identity provider links: "

/-- `validate_provider_map(state)` from `flask_multiauth/util.py`:
raises on registered auth providers missing from the map, then (only if
that check passed) on identity providers referenced by the map but not
registered. -/
def validate_provider_map (st : ValidationState) : Except PyErr Unit :=
  let invalid1 := st.auth_providers.filter (fun k => !(dmem k st.provider_map))
  if !invalid1.isEmpty then .error (.valueErrorNames authLinkMsg invalid1)
  else
    match map_targets (st.provider_map.map (·.2)) with
    | .error e => .error e
    | .ok targeted =>
      let invalid2 := (pydedup targeted).filter
        (fun t => !(st.identity_providers.contains t))
      if !invalid2.isEmpty then .error (.valueErrorNames brokenLinkMsg invalid2)
      else .ok ()

theorem links_targets_mem (links : List LinkDict) (ts : List String)
    (h : links_targets links = .ok ts) (t : String) :
    t ∈ ts ↔ ∃ l ∈ links, l.identity_provider = some t := by
  induction links generalizing ts with
  | nil =>
    simp only [links_targets] at h
    cases h
    simp
  | cons l ls ih =>
    simp only [links_targets] at h
    rcases hl : l.identity_provider with _ | t0
    · rw [hl] at h
      exact absurd h (by simp)
    · rw [hl] at h
      rcases hr : links_targets ls with e | r
      · rw [hr] at h
        exact absurd h (by simp)
      · rw [hr] at h
        cases h
        simp only [List.mem_cons, ih r hr]
        constructor
        · rintro (h1 | ⟨l', hm, he⟩)
          · exact ⟨l, Or.inl rfl, h1 ▸ hl⟩
          · exact ⟨l', Or.inr hm, he⟩
        · rintro ⟨l', h1 | h1, he⟩
          · subst h1
            rw [hl] at he
            exact Or.inl (Option.some_inj.1 he).symm
          · exact Or.inr ⟨l', h1, he⟩

theorem map_targets_mem (lls : List (List LinkDict)) (ts : List String)
    (h : map_targets lls = .ok ts) (t : String) :
    t ∈ ts ↔ ∃ links ∈ lls, ∃ l ∈ links, l.identity_provider = some t := by
  induction lls generalizing ts with
  | nil =>
    simp only [map_targets] at h
    cases h
    simp
  | cons links rest ih =>
    simp only [map_targets] at h
    rcases h1 : links_targets links with e | ts1
    · rw [h1] at h
      exact absurd h (by simp)
    · rw [h1] at h
      rcases h2 : map_targets rest with e | ts2
      · rw [h2] at h
        exact absurd h (by simp)
      · rw [h2] at h
        cases h
        simp only [List.mem_append, links_targets_mem links ts1 h1 t, ih ts2 h2]
        constructor
        · rintro (h3 | ⟨links', hm, h3⟩)
          · exact ⟨links, List.mem_cons_self _ _, h3⟩
          · exact ⟨links', List.mem_cons_of_mem _ hm, h3⟩
        · rintro ⟨links', hm, h3⟩
          rcases List.mem_cons.1 hm with h4 | h4
          · exact Or.inl (h4 ▸ h3)
          · exact Or.inr ⟨links', h4, h3⟩

theorem links_targets_error (links : List LinkDict) (e : PyErr)
    (h : links_targets links = .error e) : e = .keyError "identity_provider" := by
  induction links generalizing e with
  | nil => simp [links_targets] at h
  | cons l ls ih =>
    simp only [links_targets] at h
    rcases hl : l.identity_provider with _ | t
    · rw [hl] at h
      cases h
      rfl
    · rw [hl] at h
      rcases hr : links_targets ls with e' | r
      · rw [hr] at h
        cases h
        exact ih e hr
      · rw [hr] at h
        exact absurd h (by simp)

theorem map_targets_error (lls : List (List LinkDict)) (e : PyErr)
    (h : map_targets lls = .error e) : e = .keyError "identity_provider" := by
  induction lls generalizing e with
  | nil => simp [map_targets] at h
  | cons links rest ih =>
    simp only [map_targets] at h
    rcases h1 : links_targets links with e' | ts1
    · rw [h1] at h
      cases h
      exact links_targets_error links e h1
    · rw [h1] at h
      rcases h2 : map_targets rest with e' | ts2
      · rw [h2] at h
        cases h
        exact ih e h2
      · rw [h2] at h
        exact absurd h (by simp)

/-- Claim C1 counterexample: with registered auth providers `{a, b}`,
registered identity providers `{}` and map `{a: ({'identity_provider':
'x'},)}`, `validate_provider_map` fails naming only the unlinked auth
provider `b`; the broken identity-provider reference `x` is not part of
that single failure, so validation does stop at the first category of
problems. -/
theorem validate_provider_map_fail_fast :
    validate_provider_map
        { auth_providers := ["a", "b"], identity_providers := [],
          provider_map := [("a", [{ identity_provider := some "x" }])] }
      = .error (.valueErrorNames authLinkMsg ["b"])
    ∧ "x" ∉ ["b"] :=
  ⟨rfl, by decide⟩

/-- Claim C1 amended: each `validate_provider_map` failure is complete
for its own category.  An auth-link failure names exactly the registered
auth providers absent from the provider map; a broken-links failure
implies every registered auth provider is linked and names exactly the
identity providers referenced by the map but not registered.  The two
categories are never combined: the auth-link check raises before the
identity-provider check runs. -/
theorem validate_provider_map_categories (st : ValidationState) :
    (∀ names, validate_provider_map st
        = .error (.valueErrorNames authLinkMsg names) →
      ∀ a, a ∈ names ↔ a ∈ st.auth_providers ∧ dmem a st.provider_map = false)
    ∧ (∀ names, validate_provider_map st
        = .error (.valueErrorNames brokenLinkMsg names) →
      (∀ a ∈ st.auth_providers, dmem a st.provider_map = true)
      ∧ ∀ t, t ∈ names ↔
          ((∃ kv ∈ st.provider_map, ∃ l ∈ kv.2, l.identity_provider = some t)
            ∧ t ∉ st.identity_providers)) := by
  constructor
  · intro names h a
    simp only [validate_provider_map] at h
    split at h
    · simp only [Except.error.injEq, PyErr.valueErrorNames.injEq] at h
      rw [← h.2, List.mem_filter]
      simp
    · split at h
      · rename_i e heq
        have he := map_targets_error _ _ heq
        subst he
        exact absurd h (by simp)
      · split at h
        · simp only [Except.error.injEq, PyErr.valueErrorNames.injEq] at h
          exact absurd h.1 (by decide)
        · exact absurd h (by simp)
  · intro names h
    simp only [validate_provider_map] at h
    split at h
    · simp only [Except.error.injEq, PyErr.valueErrorNames.injEq] at h
      exact absurd h.1 (by decide)
    · rename_i hcond
      have hnil : st.auth_providers.filter (fun k => !(dmem k st.provider_map))
          = [] := by
        rw [← List.isEmpty_iff]
        simpa using hcond
      constructor
      · intro a ha
        have := List.filter_eq_nil_iff.1 hnil a ha
        simpa using this
      · split at h
        · rename_i e heq
          have he := map_targets_error _ _ heq
          subst he
          exact absurd h (by simp)
        · rename_i targeted heq
          split at h
          · simp only [Except.error.injEq, PyErr.valueErrorNames.injEq] at h
            intro t
            rw [← h.2, List.mem_filter, mem_pydedup, map_targets_mem _ _ heq t]
            constructor
            · rintro ⟨⟨links, hm, hl⟩, hc⟩
              rcases List.mem_map.1 hm with ⟨kv, hkv, hkve⟩
              exact ⟨⟨kv, hkv, hkve ▸ hl⟩, by simpa using hc⟩
            · rintro ⟨⟨kv, hkv, hl⟩, hc⟩
              exact ⟨⟨kv.2, List.mem_map.2 ⟨kv, hkv, rfl⟩, hl⟩, by simpa using hc⟩
          · exact absurd h (by simp)

/-- Witness for claim C1 (amended): a state whose map references the
unregistered identity provider `x` makes validation fail with the
broken-links message naming exactly `x`. -/
theorem validate_provider_map_categories_witness :
    "x" ∈ ["x"] ↔
      ((∃ kv ∈ ([("a", [({ identity_provider := some "x" } : LinkDict)])] :
          Dict (List LinkDict)), ∃ l ∈ kv.2, l.identity_provider = some "x")
        ∧ "x" ∉ ([] : List String)) :=
  ((validate_provider_map_categories
      { auth_providers := ["a"], identity_providers := [],
        provider_map := [("a", [{ identity_provider := some "x" }])] }).2
    ["x"] rfl).2 "x"

/-! ## The resolution engine (`flask_multiauth/core.py`,
`MultiAuth.handle_auth_info`) -/

/-- A user identity as the claims need it: an opaque identifier. -/
abbrev UserInfo := String

/-- The result of a successful authentication: the name of the auth
provider that produced it and the flat data dict
(`flask_multiauth.data.AuthInfo`; the class itself is not among the
source files, its two attributes are used as described by the spec). -/
structure AuthInfo where
  provider : String
  data : Dict PyVal

/-- Modelled from the spec: `AuthInfo.map(mapping)` (the `AuthInfo`
class is not among the source files).  Spec 4.4 maps `authInfo.data`
through the link's field mapping with the Attribute Mapper of spec 4.3,
i.e. `convert_data` without a key restriction, keeping the provider. -/
def AuthInfo.map (ai : AuthInfo) (mapping : Dict String) : AuthInfo :=
  { provider := ai.provider, data := convert_data ai.data mapping none }

/-- An identity provider as `handle_auth_info` uses it: its
`get_user_from_auth` hook, returning a matching user or `None`. -/
structure Provider where
  get_user_from_auth : AuthInfo → Option UserInfo

/-- The state `handle_auth_info` reads: the canonical provider map and
identity-provider registry of `_MultiAuthState` (the latter stored under
`user_providers`), plus the two config flags
`MULTIAUTH_ALL_MATCHING_USERS` and `MULTIAUTH_REQUIRE_USER`. -/
structure MAState where
  provider_map : Dict (List LinkDict)
  user_providers : Dict Provider
  all_matching_users : Bool
  require_user : Bool

/-- What `login_finished` hands to the registered callback: the full
user list when `MULTIAUTH_ALL_MATCHING_USERS` is set, otherwise
`users[0] if users else None`. -/
inductive CBArg where
  | single (u : Option UserInfo)
  | list (us : List UserInfo)
  deriving DecidableEq, Repr

/-- The `for link in links` loop of `handle_auth_info`: resolve
`link['user_provider']` (a `KeyError` when absent), look the provider up
in `user_providers`, query it with the auth info mapped through
`link.get('mapping', {})`, collect a match, and stop at the first match
unless `MULTIAUTH_ALL_MATCHING_USERS` is set. -/
def resolve_links (st : MAState) (ai : AuthInfo) :
    List LinkDict → List UserInfo → Except PyErr (List UserInfo)
  | [], users => .ok users
  | l :: ls, users =>
    match l.user_provider with
    | none => .error (.keyError "user_provider")
    | some pn =>
      match dget st.user_providers pn with
      | none => .error (.keyError pn)
      | some provider =>
        match provider.get_user_from_auth (ai.map l.getMapping) with
        | none => resolve_links st ai ls users
        | some u =>
          if st.all_matching_users then resolve_links st ai ls (users ++ [u])
          else .ok (users ++ [u])

/-- `MultiAuth.handle_auth_info(auth_info)` from `core.py`, returning
the argument passed to `login_finished` (i.e. to the registered
callback) instead of invoking it. -/
def handle_auth_info (st : MAState) (ai : AuthInfo) : Except PyErr CBArg :=
  match dget st.provider_map ai.provider with
  | none => .error (.keyError ai.provider)
  | some links =>
    match resolve_links st ai links [] with
    | .error e => .error e
    | .ok users =>
      if users.isEmpty && st.require_user then
        .error (.userRetrievalFailed "No user found")
      else if st.all_matching_users then .ok (.list users)
      else .ok (.single users.head?)

theorem resolve_links_all_none (st : MAState) (ai : AuthInfo)
    (links : List LinkDict) (users : List UserInfo)
    (h : ∀ l ∈ links, ∃ pn provider, l.user_provider = some pn
      ∧ dget st.user_providers pn = some provider
      ∧ provider.get_user_from_auth (ai.map l.getMapping) = none) :
    resolve_links st ai links users = .ok users := by
  induction links with
  | nil => rfl
  | cons l ls ih =>
    rcases h l (List.mem_cons_self l ls) with ⟨pn, provider, h1, h2, h3⟩
    simp only [resolve_links, h1, h2, h3]
    exact ih (fun l' hl' => h l' (List.mem_cons_of_mem _ hl'))

/-- Claim C2: when every linked identity provider yields no match, the
resolution of an authentication event raises `UserRetrievalFailed` if
`MULTIAUTH_REQUIRE_USER` is set — regardless of
`MULTIAUTH_ALL_MATCHING_USERS`, so with the all-matches flag and zero
results it still raises instead of delivering an empty list — and
otherwise hands the callback `None` (or the empty list when the
all-matches flag is set). -/
theorem handle_auth_info_no_match (st : MAState) (ai : AuthInfo)
    (links : List LinkDict)
    (hlinks : dget st.provider_map ai.provider = some links)
    (h : ∀ l ∈ links, ∃ pn provider, l.user_provider = some pn
      ∧ dget st.user_providers pn = some provider
      ∧ provider.get_user_from_auth (ai.map l.getMapping) = none) :
    (st.require_user = true →
      handle_auth_info st ai = .error (.userRetrievalFailed "No user found"))
    ∧ (st.require_user = false → st.all_matching_users = true →
      handle_auth_info st ai = .ok (.list []))
    ∧ (st.require_user = false → st.all_matching_users = false →
      handle_auth_info st ai = .ok (.single none)) := by
  have hres : handle_auth_info st ai =
      (if List.isEmpty ([] : List UserInfo) && st.require_user then
        .error (.userRetrievalFailed "No user found")
      else if st.all_matching_users then .ok (.list [])
      else .ok (.single (List.head? ([] : List UserInfo)))) := by
    simp only [handle_auth_info, hlinks, resolve_links_all_none st ai links [] h]
  refine ⟨fun hr => ?_, fun hr ha => ?_, fun hr ha => ?_⟩
  · rw [hres]
    simp [hr]
  · rw [hres]
    simp [hr, ha]
  · rw [hres]
    simp [hr, ha]

/-- Witness for claim C2: one link to provider `x` which matches nothing;
with `MULTIAUTH_REQUIRE_USER` and `MULTIAUTH_ALL_MATCHING_USERS` both
set, resolution raises `UserRetrievalFailed`. -/
theorem handle_auth_info_no_match_witness :
    handle_auth_info
        { provider_map := [("a", [{ user_provider := some "x" }])],
          user_providers := [("x", ⟨fun _ => none⟩)],
          all_matching_users := true, require_user := true }
        { provider := "a", data := [] }
      = .error (.userRetrievalFailed "No user found") :=
  (handle_auth_info_no_match
      { provider_map := [("a", [{ user_provider := some "x" }])],
        user_providers := [("x", ⟨fun _ => none⟩)],
        all_matching_users := true, require_user := true }
      { provider := "a", data := [] }
      [{ user_provider := some "x" }] rfl
      (by
        intro l hl
        rw [List.mem_singleton] at hl
        subst hl
        exact ⟨"x", ⟨fun _ => none⟩, rfl, rfl, rfl⟩)).1 rfl

/-- Claim C3, evaluated at the failing input: resolving an
authentication event against the canonical provider map produced by
normalizing `{a: "x"}` raises `KeyError('user_provider')` instead of
querying the linked provider `x` — `handle_auth_info` reads
`link['user_provider']` while `get_canonical_provider_map` writes the
key `identity_provider` — even though provider `x` would match a user
(`u1`), so the callback never receives it. -/
theorem handle_auth_info_canonical_map_keyerror :
    handle_auth_info
        { provider_map :=
            get_canonical_provider_map [("a", RawValue.one (RawLink.str "x"))],
          user_providers := [("x", ⟨fun _ => some "u1"⟩)],
          all_matching_users := true, require_user := false }
        { provider := "a", data := [] }
      = .error (.keyError "user_provider") := rfl

/-! ## Provider registry creation (`flask_multiauth/core.py`,
`MultiAuth._create_providers`) -/

/-- The two provider base classes, `AuthProvider` and
`IdentityProvider`/`UserProvider`. -/
inductive ProviderBase where
  | auth
  | user
  deriving DecidableEq, Repr

/-- A provider implementation class as `_create_providers` uses it: its
`type` identifier, its `multi_instance` flag and which base class it
subclasses. -/
structure ProviderClass where
  type : String
  multi_instance : Bool
  base : ProviderBase
  deriving DecidableEq, Repr

/-- A constructed provider instance `cls(self, name, settings)`. -/
structure ProviderInstance where
  cls : ProviderClass
  name : String
  settings : Dict PyVal
  deriving DecidableEq, Repr

/-- The `isclass(type_)` branch of `resolve_provider_type` from
`flask_multiauth/util.py`: a class given directly in the configuration
is accepted when it subclasses `base` and rejected with a `TypeError`
otherwise.  (`_create_providers` calls it without a registry, so the
other channel is external entry-point discovery, which performs I/O and
is not part of any claim.) -/
def resolve_provider_type (base : ProviderBase) (t : ProviderClass) :
    Except PyErr ProviderClass :=
  if t.base = base then .ok t
  else .error (.typeError "Received a class which is not a subclass of the base")

/-- Message prefix of the duplicate-single-instance failure of
`_create_providers`. -/
def multiInstanceMsg : String := "Provider does not support multiple instances: "

/-- One configured provider entry `(name, settings)`; `settings.pop('type')`
is modelled by carrying the type value next to the remaining settings. -/
abbrev ProviderEntry := String × ProviderClass × Dict PyVal

/-- The loop of `_create_providers`: resolve each entry's type, fail
with a `RuntimeError` naming the type when a non-multi-instance type was
already instantiated, otherwise record the instance under the entry
name and remember the type. -/
def create_providers_loop (base : ProviderBase) :
    List ProviderEntry → Dict ProviderInstance → List String →
      Except PyErr (Dict ProviderInstance)
  | [], providers, _ => .ok providers
  | (name, t, settings) :: rest, providers, provider_types =>
    match resolve_provider_type base t with
    | .error e => .error e
    | .ok cls =>
      if !cls.multi_instance && provider_types.contains cls.type then
        .error (.runtimeError (multiInstanceMsg ++ cls.type))
      else
        create_providers_loop base rest
          (dset providers name ⟨cls, name, settings⟩) (cls.type :: provider_types)

/-- `MultiAuth._create_providers(key, base)` from `core.py`, over the
configured entries of `MULTIAUTH_*_PROVIDERS`. -/
def create_providers (base : ProviderBase) (entries : List ProviderEntry) :
    Except PyErr (Dict ProviderInstance) :=
  create_providers_loop base entries [] []

/-- Success condition of the loop given the already-seen type set. -/
def LoopOk (types : List String) : List ProviderClass → Prop
  | [] => True
  | c :: rest => (c.multi_instance = false → c.type ∉ types) ∧ LoopOk (c.type :: types) rest

theorem create_providers_loop_cons_ok (base : ProviderBase) (name : String)
    (t : ProviderClass) (settings : Dict PyVal) (rest : List ProviderEntry)
    (providers : Dict ProviderInstance) (types : List String)
    (hb : t.base = base)
    (hcond : (!t.multi_instance && types.contains t.type) = false) :
    create_providers_loop base ((name, t, settings) :: rest) providers types
      = create_providers_loop base rest
          (dset providers name ⟨t, name, settings⟩) (t.type :: types) := by
  have hres : resolve_provider_type base t = Except.ok t := by
    simp [resolve_provider_type, hb]
  simp only [create_providers_loop, hres, hcond, Bool.false_eq_true, if_false]

theorem create_providers_loop_cons_fail (base : ProviderBase) (name : String)
    (t : ProviderClass) (settings : Dict PyVal) (rest : List ProviderEntry)
    (providers : Dict ProviderInstance) (types : List String)
    (hb : t.base = base)
    (hcond : (!t.multi_instance && types.contains t.type) = true) :
    create_providers_loop base ((name, t, settings) :: rest) providers types
      = .error (.runtimeError (multiInstanceMsg ++ t.type)) := by
  have hres : resolve_provider_type base t = Except.ok t := by
    simp [resolve_provider_type, hb]
  simp only [create_providers_loop, hres, hcond, if_true]

theorem loop_ok_spec (base : ProviderBase) (entries : List ProviderEntry)
    (providers : Dict ProviderInstance) (types : List String)
    (hbase : ∀ e ∈ entries, (e.2.1).base = base)
    (hnodup : (entries.map (·.1)).Nodup)
    (hok : LoopOk types (entries.map (fun e => e.2.1))) :
    ∃ d, create_providers_loop base entries providers types = .ok d
      ∧ (∀ k, k ∉ entries.map (·.1) → dget d k = dget providers k)
      ∧ ∀ e ∈ entries, dget d e.1 = some ⟨e.2.1, e.1, e.2.2⟩ := by
  induction entries generalizing providers types with
  | nil => exact ⟨providers, rfl, fun _ _ => rfl, by simp⟩
  | cons e rest ih =>
    rcases e with ⟨name, t, settings⟩
    have hb : t.base = base := hbase _ (List.mem_cons_self _ _)
    simp only [List.map_cons, List.nodup_cons] at hnodup
    simp only [List.map_cons] at hok
    rcases hok with ⟨hok1, hok2⟩
    have hcond : (!t.multi_instance && types.contains t.type) = false := by
      by_cases hmi : t.multi_instance = true
      · simp [hmi]
      · rw [Bool.not_eq_true] at hmi
        have := hok1 hmi
        simp [hmi, this]
    rcases ih (dset providers name ⟨t, name, settings⟩) (t.type :: types)
        (fun e' he' => hbase e' (List.mem_cons_of_mem _ he')) hnodup.2 hok2 with
      ⟨d, hd, hother, hall⟩
    refine ⟨d, ?_, ?_, ?_⟩
    · rw [create_providers_loop_cons_ok base name t settings rest providers types hb hcond]
      exact hd
    · intro k hk
      simp only [List.map_cons, List.mem_cons] at hk
      push_neg at hk
      rw [hother k hk.2, dget_dset_ne _ _ _ _ hk.1]
    · intro e' he'
      rcases List.mem_cons.1 he' with h1 | h1
      · subst h1
        rw [hother name hnodup.1, dget_dset_self]
      · exact hall e' h1

theorem loop_fail_spec (base : ProviderBase) (entries : List ProviderEntry)
    (providers : Dict ProviderInstance) (types : List String)
    (hbase : ∀ e ∈ entries, (e.2.1).base = base)
    (hnok : ¬ LoopOk types (entries.map (fun e => e.2.1))) :
    ∃ t, create_providers_loop base entries providers types
        = .error (.runtimeError (multiInstanceMsg ++ t))
      ∧ ∃ b ∈ entries.map (fun e => e.2.1), b.multi_instance = false ∧ b.type = t
        ∧ (t ∈ types
          ∨ ∃ a, List.Sublist [a, b] (entries.map (fun e => e.2.1)) ∧ a.type = t) := by
  induction entries generalizing providers types with
  | nil => simp [LoopOk] at hnok
  | cons e rest ih =>
    rcases e with ⟨name, t0, settings⟩
    have hb := hbase _ (List.mem_cons_self _ _)
    simp only [List.map_cons, LoopOk] at hnok
    by_cases hcond : (!t0.multi_instance && types.contains t0.type) = true
    · rcases Bool.and_eq_true_iff.1 hcond with ⟨hm, hc⟩
      have hm' : t0.multi_instance = false := by simpa using hm
      have hc' : t0.type ∈ types := by simpa using hc
      exact ⟨t0.type,
        create_providers_loop_cons_fail base name t0 settings rest providers types hb hcond,
        t0, List.mem_cons_self _ _, hm', rfl, Or.inl hc'⟩
    · have hcond' : (!t0.multi_instance && types.contains t0.type) = false :=
        Bool.not_eq_true _ ▸ (Bool.eq_false_iff.2 hcond)
      have hok1 : t0.multi_instance = false → t0.type ∉ types := by
        intro hmi hmem
        exact hcond (by simp [hmi, hmem])
      have hnok2 : ¬ LoopOk (t0.type :: types) (rest.map (fun e => e.2.1)) :=
        fun h => hnok ⟨hok1, h⟩
      rcases ih (dset providers name ⟨t0, name, settings⟩) (t0.type :: types)
          (fun e' he' => hbase e' (List.mem_cons_of_mem _ he')) hnok2 with
        ⟨t, herr, b, hbmem, hbm, hbt, hdisj⟩
      refine ⟨t, ?_, b, List.mem_cons_of_mem _ hbmem, hbm, hbt, ?_⟩
      · rw [create_providers_loop_cons_ok base name t0 settings rest providers types
          hb hcond']
        exact herr
      · rcases hdisj with hmem | ⟨a, hs, hat⟩
        · rcases List.mem_cons.1 hmem with h1 | h1
          · refine Or.inr ⟨t0, ?_, h1.symm⟩
            exact List.Sublist.cons₂ t0 (List.singleton_sublist.2 hbmem)
          · exact Or.inl h1
        · exact Or.inr ⟨a, List.Sublist.cons t0 hs, hat⟩

theorem LoopOk_iff (types : List String) (cs : List ProviderClass) :
    LoopOk types cs ↔ ((∀ c ∈ cs, c.multi_instance = false → c.type ∉ types)
      ∧ List.Pairwise (fun a b => b.multi_instance = false → b.type ≠ a.type) cs) := by
  induction cs generalizing types with
  | nil => simp [LoopOk]
  | cons c rest ih =>
    simp only [LoopOk, ih, List.pairwise_cons, List.mem_cons]
    constructor
    · rintro ⟨h1, h2, h3⟩
      refine ⟨?_, ?_, h3⟩
      · rintro c' (rfl | hm) hmi
        · exact h1 hmi
        · intro ht
          exact (h2 c' hm hmi) (Or.inr ht)
      · intro b hm hmi ht
        exact (h2 b hm hmi) (Or.inl ht)
    · rintro ⟨h1, h2, h3⟩
      refine ⟨fun hmi => h1 c (Or.inl rfl) hmi, ?_, h3⟩
      intro c' hm hmi hmem
      rcases hmem with h4 | h4
      · exact h2 c' hm hmi h4
      · exact h1 c' (Or.inr hm) hmi h4

/-- Claim C6: over one `_create_providers` call whose entries all resolve
to classes of the right base, if two entries (in order) resolve to the
same provider type and that type is flagged non-multi-instance, creation
fails with the error naming an offending duplicated non-multi-instance
type; if no such pair exists, creation succeeds and every entry's
instance appears in the resulting name-to-instance mapping. -/
theorem create_providers_spec (base : ProviderBase) (entries : List ProviderEntry)
    (hbase : ∀ e ∈ entries, (e.2.1).base = base)
    (hnodup : (entries.map (·.1)).Nodup) :
    ((∃ a b, List.Sublist [a, b] (entries.map (fun e => e.2.1))
        ∧ a.type = b.type ∧ b.multi_instance = false) →
      ∃ t, create_providers base entries
          = .error (.runtimeError (multiInstanceMsg ++ t))
        ∧ ∃ a b, List.Sublist [a, b] (entries.map (fun e => e.2.1))
          ∧ a.type = t ∧ b.type = t ∧ b.multi_instance = false)
    ∧ ((∀ a b, List.Sublist [a, b] (entries.map (fun e => e.2.1)) →
          a.type = b.type → b.multi_instance = true) →
      ∃ d, create_providers base entries = .ok d
        ∧ ∀ e ∈ entries, dget d e.1 = some ⟨e.2.1, e.1, e.2.2⟩) := by
  constructor
  · rintro ⟨a, b, hs, hab, hbm⟩
    have hnok : ¬ LoopOk [] (entries.map fun e => e.2.1) := by
      rw [LoopOk_iff]
      rintro ⟨_, hp⟩
      exact (List.pairwise_iff_forall_sublist.1 hp hs) hbm hab.symm
    rcases loop_fail_spec base entries [] [] hbase hnok with
      ⟨t, herr, b', hbmem, hbm', hbt', hdisj⟩
    rcases hdisj with h | ⟨a', hs', hat'⟩
    · simp at h
    · exact ⟨t, herr, a', b', hs', hat', hbt', hbm'⟩
  · intro hp
    have hok : LoopOk [] (entries.map fun e => e.2.1) := by
      rw [LoopOk_iff]
      refine ⟨by simp, List.pairwise_iff_forall_sublist.2 ?_⟩
      intro a b hs hbm hne
      rw [hp a b hs hne.symm] at hbm
      exact Bool.noConfusion hbm
    rcases loop_ok_spec base entries [] [] hbase hnodup hok with ⟨d, hd, _, hall⟩
    exact ⟨d, hd, hall⟩

/-- Witness for claim C6: two entries of the non-multi-instance type
`unique` make creation fail naming `unique`; two entries of the
multi-instance type `multi` are both created. -/
theorem create_providers_spec_witness :
    (∃ t, create_providers ProviderBase.auth
        [("test", ⟨"unique", false, ProviderBase.auth⟩, []),
         ("test2", ⟨"unique", false, ProviderBase.auth⟩, [])]
        = .error (.runtimeError (multiInstanceMsg ++ t))
      ∧ ∃ a b, List.Sublist [a, b]
          (([("test", (⟨"unique", false, ProviderBase.auth⟩ : ProviderClass),
              ([] : Dict PyVal)),
             ("test2", ⟨"unique", false, ProviderBase.auth⟩, [])]).map
            (fun e => e.2.1))
        ∧ a.type = t ∧ b.type = t ∧ b.multi_instance = false)
    ∧ (∃ d, create_providers ProviderBase.auth
          [("t1", ⟨"multi", true, ProviderBase.auth⟩, []),
           ("t2", ⟨"multi", true, ProviderBase.auth⟩, [])] = .ok d
        ∧ ∀ e ∈ ([("t1", (⟨"multi", true, ProviderBase.auth⟩ : ProviderClass),
              ([] : Dict PyVal)),
            ("t2", ⟨"multi", true, ProviderBase.auth⟩, [])] : List ProviderEntry),
            dget d e.1 = some ⟨e.2.1, e.1, e.2.2⟩) := by
  constructor
  · refine (create_providers_spec ProviderBase.auth
      [("test", ⟨"unique", false, ProviderBase.auth⟩, []),
       ("test2", ⟨"unique", false, ProviderBase.auth⟩, [])]
      ?_ (by decide)).1
      ⟨⟨"unique", false, ProviderBase.auth⟩, ⟨"unique", false, ProviderBase.auth⟩,
        List.Sublist.refl _, rfl, rfl⟩
    intro e he
    simp only [List.mem_cons, List.not_mem_nil, or_false] at he
    rcases he with rfl | rfl <;> rfl
  · refine (create_providers_spec ProviderBase.auth
      [("t1", ⟨"multi", true, ProviderBase.auth⟩, []),
       ("t2", ⟨"multi", true, ProviderBase.auth⟩, [])]
      ?_ (by decide)).2 ?_
    · intro e he
      simp only [List.mem_cons, List.not_mem_nil, or_false] at he
      rcases he with rfl | rfl <;> rfl
    · intro a b hs _
      have hb := hs.subset (show b ∈ [a, b] by simp)
      have hbm : b = ⟨"multi", true, ProviderBase.auth⟩ := by simpa using hb
      rw [hbm]

/-! ## LDAP client layer (`flask_multiauth/providers/ldap/util.py`) -/

/-- python-ldap's `escape_filter_chars` for one character, as used by
`filter_format`: backslash, `*`, `(`, `)` and NUL become their
hex-escape sequences.  Applying it character by character equals the
library's sequential `str.replace` passes because no replacement output
contains a character replaced by a later pass (the original backslashes
are all consumed by the first pass). -/
def escape_char (c : Char) : String :=
  if c = '\\' then "\\5c"
  else if c = '*' then "\\2a"
  else if c = '(' then "\\28"
  else if c = ')' then "\\29"
  else if c = '\x00' then "\\00"
  else String.singleton c

/-- python-ldap's `escape_filter_chars` over a whole assertion value. -/
def escape_filter_chars (s : String) : String :=
  String.join (s.toList.map escape_char)

/-- Python truthiness of a `PyVal` (`if k and v`): `None` and the empty
string are falsy. -/
def pytruthy : PyVal → Bool
  | none => false
  | some s => s ≠ ""

/-- Modelled from the spec: `convert_app_data`, imported by
`build_search_filter` from `flask_multiauth.util`, is not among the
source files.  Spec 4.5 says the filter builder "maps criteria through
the field mapping" with the Attribute Mapper of spec 4.3, i.e.
`convert_data` without a key restriction. -/
def convert_app_data (data : Dict PyVal) (mapping : Dict String) : Dict PyVal :=
  convert_data data mapping none

/-- One `(%s=%s)` or `(%s=*%s*)` assertion of the filter template, with
both `filter_format` arguments escaped. -/
def filter_assertion (exact : Bool) (kv : String × PyVal) : String :=
  if exact then
    "(" ++ escape_filter_chars kv.1 ++ "=" ++ escape_filter_chars (kv.2.getD "") ++ ")"
  else
    "(" ++ escape_filter_chars kv.1 ++ "=*" ++ escape_filter_chars (kv.2.getD "") ++ "*)"

/-- `build_search_filter(criteria, type_filter, mapping, exact)` from
`flask_multiauth/providers/ldap/util.py`: map the criteria through the
field mapping (`mapping or {}`), drop assertions with a falsy key or
value, return `None` when none survive, and otherwise AND-combine the
per-criterion assertions with the type filter, escaping every
`filter_format` argument. -/
def build_search_filter (criteria : Dict PyVal) (type_filter : String)
    (mapping : Option (Dict String)) (exact : Bool) : Option String :=
  let assertions := (convert_app_data criteria (mapping.getD [])).filter
    (fun kv => (!(kv.1 == "")) && pytruthy kv.2)
  if assertions.isEmpty then none
  else some ("(&" ++ String.join (assertions.map (filter_assertion exact))
    ++ type_filter ++ ")")

theorem string_append_empty (s : String) : s ++ "" = s := by
  cases s with
  | mk l =>
    show String.mk (l ++ []) = String.mk l
    rw [List.append_nil]

theorem string_empty_append (s : String) : "" ++ s = s := rfl

/-- One of the claim's assertions, spelled from its words: an escaped
equality assertion when exact, an escaped substring assertion otherwise. -/
def specAssertion (exact : Bool) (k v : String) : String :=
  if exact then "(" ++ escape_filter_chars k ++ "=" ++ escape_filter_chars v ++ ")"
  else "(" ++ escape_filter_chars k ++ "=*" ++ escape_filter_chars v ++ "*)"

/-- AND-combination of a list of assertions (their concatenation, to be
wrapped in `(&...)`). -/
def specAndCombine : List String → String
  | [] => ""
  | s :: rest => s ++ specAndCombine rest

/-- Claim C7's words as an independent definition, for comparison with
the source's `build_search_filter`: map the criteria through the field
mapping with the Attribute Mapper, drop every entry whose key or value
is empty/falsy, return the no-filter result when none survive, and
otherwise AND-combine one escaped assertion per surviving criterion
(equality when exact, substring otherwise) with the type filter. -/
def buildSearchFilterSpec (criteria : Dict PyVal) (type_filter : String)
    (mapping : Option (Dict String)) (exact : Bool) : Option String :=
  let mapped := convert_data criteria (mapping.getD []) none
  let surviving := mapped.filter
    (fun kv => decide (kv.1 ≠ "" ∧ kv.2 ≠ none ∧ kv.2 ≠ some ""))
  match surviving with
  | [] => none
  | _ :: _ =>
    some ("(&" ++ specAndCombine (surviving.map
      (fun kv => specAssertion exact kv.1 (kv.2.getD ""))) ++ type_filter ++ ")")

theorem string_append_assoc (a b c : String) : a ++ b ++ c = a ++ (b ++ c) := by
  rcases a with ⟨la⟩
  rcases b with ⟨lb⟩
  rcases c with ⟨lc⟩
  show String.mk ((la ++ lb) ++ lc) = String.mk (la ++ (lb ++ lc))
  rw [List.append_assoc]

theorem foldl_append_eq (l : List String) :
    ∀ acc, List.foldl (fun r s => r ++ s) acc l = acc ++ specAndCombine l := by
  induction l with
  | nil =>
    intro acc
    exact (string_append_empty acc).symm
  | cons s rest ih =>
    intro acc
    rw [List.foldl_cons, ih (acc ++ s), specAndCombine, string_append_assoc]

theorem join_eq_specAndCombine (l : List String) :
    String.join l = specAndCombine l := by
  show List.foldl (fun r s => r ++ s) "" l = specAndCombine l
  rw [foldl_append_eq l ""]
  exact string_empty_append _

theorem surviving_pred_eq (kv : String × PyVal) :
    ((!(kv.1 == "")) && pytruthy kv.2)
      = decide (kv.1 ≠ "" ∧ kv.2 ≠ none ∧ kv.2 ≠ some "") := by
  rcases kv with ⟨k, _ | s⟩
  · simp [pytruthy]
  · by_cases hk : k = ""
    · simp [pytruthy, hk]
    · by_cases hs : s = ""
      · simp [pytruthy, hk, hs]
      · simp [pytruthy, hk, hs]

theorem build_search_filter_eq_spec (criteria : Dict PyVal) (tf : String)
    (mapping : Option (Dict String)) (exact : Bool) :
    build_search_filter criteria tf mapping exact
      = buildSearchFilterSpec criteria tf mapping exact := by
  have hca : convert_app_data criteria (mapping.getD [])
      = convert_data criteria (mapping.getD []) none := rfl
  have hfil : (convert_app_data criteria (mapping.getD [])).filter
      (fun kv => (!(kv.1 == "")) && pytruthy kv.2)
      = (convert_data criteria (mapping.getD []) none).filter
        (fun kv => decide (kv.1 ≠ "" ∧ kv.2 ≠ none ∧ kv.2 ≠ some "")) := by
    rw [hca]
    exact List.filter_congr (fun kv _ => surviving_pred_eq kv)
  simp only [build_search_filter, buildSearchFilterSpec, hfil]
  rcases hs : (convert_data criteria (mapping.getD []) none).filter
      (fun kv => decide (kv.1 ≠ "" ∧ kv.2 ≠ none ∧ kv.2 ≠ some "")) with _ | ⟨a, as⟩
  · rw [hs]
    rfl
  · rw [hs]
    simp only [List.isEmpty_cons, Bool.false_eq_true, if_false]
    rw [join_eq_specAndCombine]
    have hmap : (a :: as).map (filter_assertion exact)
        = (a :: as).map (fun kv => specAssertion exact kv.1 (kv.2.getD "")) :=
      List.map_congr_left (fun kv _ => rfl)
    rw [hmap]

theorem mem_dset_sub {V : Type} (d : Dict V) (k : String) (v : V)
    (kv : String × V) (h : kv ∈ dset d k v) : kv = (k, v) ∨ kv ∈ d := by
  simp only [dset, List.mem_cons] at h
  rcases h with h | h
  · exact Or.inl h
  · exact Or.inr (List.mem_of_mem_filter h)

theorem mem_dupdate_sub {V : Type} (d : Dict V) (upd : List (String × V))
    (kv : String × V) (h : kv ∈ dupdate d upd) : kv ∈ d ∨ kv ∈ upd := by
  induction upd generalizing d with
  | nil => exact Or.inl h
  | cons u rest ih =>
    rcases ih (dset d u.1 u.2) h with h1 | h1
    · rcases mem_dset_sub d u.1 u.2 kv h1 with h2 | h2
      · refine Or.inr ?_
        rw [h2, Prod.mk.eta]
        exact List.mem_cons_self u rest
      · exact Or.inl h2
    · exact Or.inr (List.mem_cons_of_mem _ h1)

theorem build_search_filter_empty (tf : String) (mapping : Option (Dict String))
    (exact : Bool) : build_search_filter [] tf mapping exact = none := by
  have hfil : (convert_app_data [] (mapping.getD [])).filter
      (fun kv => (!(kv.1 == "")) && pytruthy kv.2) = [] := by
    rw [List.filter_eq_nil_iff]
    intro kv hm
    have hconv : convert_app_data [] (mapping.getD [])
        = dupdate ([] : Dict PyVal)
            ((mapping.getD []).map (fun m => (m.1, pyget [] m.2))) := rfl
    rw [hconv] at hm
    have hsub := mem_dupdate_sub ([] : Dict PyVal)
      ((mapping.getD []).map (fun m => (m.1, pyget [] m.2))) kv hm
    rcases hsub with h | h
    · simp at h
    · rcases List.mem_map.1 h with ⟨m, _, hme⟩
      rw [← hme]
      simp [pytruthy, pyget, dget]
  simp only [build_search_filter, hfil]
  rfl

/-- Claim C7: for every criteria record, type filter, field mapping and
exactness flag, the LDAP filter builder behaves as the claim says —
`build_search_filter` equals the claim-worded `buildSearchFilterSpec`,
which maps the criteria through the field mapping, drops entries whose
key or value is empty/falsy, returns the no-filter result when none
survive, and AND-combines one escaped assertion per surviving criterion
(equality when exact, substring `*v*` otherwise) with the type filter.
The mapping step follows the Attribute Mapper: each mapping target
carries `criteria.get(source)`.  In particular `build_search_filter(
{name: john}, "(objectClass=user)", {}, exact)` yields
`(&(name=john)(objectClass=user))` for exact matching and
`(&(name=*john*)(objectClass=user))` otherwise, and a two-criterion
record mapped through `{cn: name}` yields both assertions AND-combined
with the type filter. -/
theorem build_search_filter_spec :
    (∀ criteria tf mapping exact,
      build_search_filter criteria tf mapping exact
        = buildSearchFilterSpec criteria tf mapping exact)
    ∧ (∀ (criteria : Dict PyVal) (mapping : Dict String) tgt src,
        (mapping.map (·.1)).Nodup → (tgt, src) ∈ mapping →
        dget (convert_app_data criteria mapping) tgt = some (pyget criteria src))
    ∧ (∀ tf mapping exact, build_search_filter [] tf mapping exact = none)
    ∧ build_search_filter [("name", some "john")] "(objectClass=user)" none true
        = some "(&(name=john)(objectClass=user))"
    ∧ build_search_filter [("name", some "john")] "(objectClass=user)" none false
        = some "(&(name=*john*)(objectClass=user))"
    ∧ build_search_filter [("name", some "john"), ("mail", some "j@x.com")]
        "(objectClass=user)" (some [("cn", "name")]) true
        = some "(&(cn=john)(mail=j@x.com)(objectClass=user))" := by
  refine ⟨build_search_filter_eq_spec, ?_, build_search_filter_empty, rfl, rfl, rfl⟩
  intro criteria mapping tgt src hm hmem
  exact dget_convert_nokeys_target criteria mapping tgt src hm hmem

/-- Witness for claim C7: the mapping `{cn: name}` pulls the criterion
value `john` into the `cn` assertion key, and the source builder agrees
with the claim-worded builder on a value containing `*`. -/
theorem build_search_filter_spec_witness :
    dget (convert_app_data [("name", some "john")] [("cn", "name")]) "cn"
        = some (some "john")
    ∧ build_search_filter [("uid", some "j*doe")] "(objectClass=user)" none true
        = buildSearchFilterSpec [("uid", some "j*doe")] "(objectClass=user)" none true :=
  ⟨build_search_filter_spec.2.1 [("name", some "john")] [("cn", "name")] "cn" "name"
      (by simp) (by simp),
    build_search_filter_spec.1 [("uid", some "j*doe")] "(objectClass=user)" none true⟩

/-! ## Paged search cookie (`get_page_cookie`) and single-entry lookup
(`find_one`) -/

/-- A server control as `get_page_cookie` reads it: its `controlType`
OID and its `cookie` payload (empty or absent when the last page was
reached). -/
structure LDAPControl where
  controlType : String
  cookie : PyVal
  deriving DecidableEq, Repr

/-- `SimplePagedResultsControl.controlType`: the OID of the RFC 2696
simple paged results control. -/
def pagedResultsOid : String := "1.2.840.113556.1.4.319"

/-- Message of the `LDAPServerError` raised by `get_page_cookie`. -/
def pagingUnsupportedMsg : String := "The LDAP server ignores the RFC 2696 specification"

/-- `get_page_cookie(server_ctrls)` from
`flask_multiauth/providers/ldap/util.py`: keep the controls whose type
is the paged-results OID; raise `LDAPServerError` when there is none,
otherwise return the first one's cookie. -/
def get_page_cookie (server_ctrls : List LDAPControl) : Except PyErr PyVal :=
  match server_ctrls.filter (fun ctrl => ctrl.controlType == pagedResultsOid) with
  | [] => .error (.ldapServerError pagingUnsupportedMsg)
  | ctrl :: _ => .ok ctrl.cookie

/-- Claim C8: when no server control has the RFC 2696 paged-results
control type, `get_page_cookie` fails with the server-does-not-support-
paging error; otherwise it returns the cookie of the first control with
that type. -/
theorem get_page_cookie_spec (server_ctrls : List LDAPControl) :
    ((∀ ctrl ∈ server_ctrls, ctrl.controlType ≠ pagedResultsOid) →
      get_page_cookie server_ctrls = .error (.ldapServerError pagingUnsupportedMsg))
    ∧ (∀ pre ctrl post, server_ctrls = pre ++ ctrl :: post →
        (∀ c ∈ pre, c.controlType ≠ pagedResultsOid) →
        ctrl.controlType = pagedResultsOid →
        get_page_cookie server_ctrls = .ok ctrl.cookie) := by
  constructor
  · intro h
    have hfil : server_ctrls.filter (fun c => c.controlType == pagedResultsOid) = [] := by
      rw [List.filter_eq_nil_iff]
      intro c hc
      simpa using h c hc
    rw [get_page_cookie, hfil]
  · intro pre ctrl post hsplit hpre hctrl
    have hfil : server_ctrls.filter (fun c => c.controlType == pagedResultsOid)
        = ctrl :: post.filter (fun c => c.controlType == pagedResultsOid) := by
      rw [hsplit, List.filter_append]
      have hnil : pre.filter (fun c => c.controlType == pagedResultsOid) = [] := by
        rw [List.filter_eq_nil_iff]
        intro c hc
        simpa using hpre c hc
      rw [hnil, List.nil_append, List.filter_cons_of_pos (by simpa using hctrl)]
    rw [get_page_cookie, hfil]

/-- Witness for claim C8: a control list whose only paged-results
control carries cookie `abc`, preceded by an unrelated control. -/
theorem get_page_cookie_spec_witness :
    get_page_cookie [⟨"1.2.3.4", none⟩, ⟨pagedResultsOid, some "abc"⟩]
      = .ok (some "abc") :=
  (get_page_cookie_spec [⟨"1.2.3.4", none⟩, ⟨pagedResultsOid, some "abc"⟩]).2
    [⟨"1.2.3.4", none⟩] ⟨pagedResultsOid, some "abc"⟩ [] rfl
    (by
      intro c hc
      rw [List.mem_singleton] at hc
      rw [hc]
      decide)
    rfl

/-- The attributes of one directory entry: attribute name to values. -/
abbrev Attrs := Dict (List String)

/-- Python truthiness of a result DN (`if dn`): referral entries carry
`None`, and an empty string is falsy too. -/
def dn_truthy : Option String → Bool
  | none => false
  | some s => s ≠ ""

/-- `find_one(base_dn, search_filter, attributes)` from
`flask_multiauth/providers/ldap/util.py`, over the entry list the
directory returned: the `search_ext_s` call (subtree scope,
`sizelimit=1`, configured timeout) is represented by its result list,
and the function returns
`next(((dn, data) for dn, data in entry if dn), (None, None))`. -/
def find_one (entry : List (Option String × Attrs)) : Option String × Option Attrs :=
  match entry.find? (fun p => dn_truthy p.1) with
  | some (dn, data) => (dn, some data)
  | none => (none, none)

theorem find?_append_of_none {α : Type} (p : α → Bool) (l1 l2 : List α)
    (h : l1.find? p = none) : (l1 ++ l2).find? p = l2.find? p := by
  induction l1 with
  | nil => rfl
  | cons a l ih =>
    cases hb : p a with
    | true =>
      rw [List.find?_cons_of_pos _ hb] at h
      exact absurd h (by simp)
    | false =>
      rw [List.find?_cons_of_neg _ (by simp [hb])] at h
      rw [List.cons_append, List.find?_cons_of_neg _ (by simp [hb]), ih h]

/-- Claim C9: over the result sequence of the size-limit-1 subtree
search, `find_one` returns the first `(dn, attributes)` pair whose DN is
truthy (non-empty), and the not-found result `(None, None)` when no such
pair exists; it is a total function, so zero matches never raise. -/
theorem find_one_spec (entry : List (Option String × Attrs)) :
    ((∀ p ∈ entry, dn_truthy p.1 = false) → find_one entry = (none, none))
    ∧ (∀ pre p post, entry = pre ++ p :: post →
        (∀ q ∈ pre, dn_truthy q.1 = false) → dn_truthy p.1 = true →
        find_one entry = (p.1, some p.2)) := by
  constructor
  · intro h
    have hfind : entry.find? (fun p => dn_truthy p.1) = none :=
      List.find?_eq_none.2 (fun x hx => by simp [h x hx])
    rw [find_one, hfind]
  · intro pre p post hsplit hpre hp
    have h1 : pre.find? (fun q => dn_truthy q.1) = none :=
      List.find?_eq_none.2 (fun x hx => by simp [hpre x hx])
    have hfind : entry.find? (fun q => dn_truthy q.1) = some p := by
      rw [hsplit, find?_append_of_none _ _ _ h1]
      simp [List.find?_cons, hp]
    rcases p with ⟨dn, data⟩
    rw [find_one, hfind]

/-- Witness for claim C9: a referral entry (DN `None`) followed by a
real entry; `find_one` returns the real entry's DN and attributes. -/
theorem find_one_spec_witness :
    find_one [(none, []), (some "cn=foo,dc=example", [("cn", ["foo"])])]
      = (some "cn=foo,dc=example", some [("cn", ["foo"])]) :=
  (find_one_spec [(none, []), (some "cn=foo,dc=example", [("cn", ["foo"])])]).2
    [(none, [])] (some "cn=foo,dc=example", [("cn", ["foo"])]) [] rfl
    (by
      intro q hq
      rw [List.mem_singleton] at hq
      subst hq
      rfl)
    (by decide)
